import Mathlib

/-
  Verification of the ncmdump-web decoders.

  Shallow embedding of the two decoder implementations of the repository:
    - scripts/ncmdump.js            (function dump, Node)
    - src/lib/ncmdump-browser.ts    (function dumpNcm, browser)
  Bytes are modelled as Nat with explicit % 256 masking exactly where a JS
  typed-array store masks.  Platform primitives that the code delegates to
  libraries (AES-ECB decryption via node:crypto / crypto-js, UTF-8 text
  decoding, base64 decoding, JSON.parse) are not code of this repository;
  they are modelled from the spec as an abstract bundle of functions
  (structure Primitives below), with Option encoding their failure by
  exception.  Everything else is translated statement by statement from the
  two source files.
-/

set_option maxRecDepth 8000

namespace Ncm

/-- A store of `b XOR m` into a JS typed-array cell: the value is masked to a
byte.  Used for the in-place `keyDataXored[i] ^= 0x64` / `^= 0x63` loops and
for the keystream XOR writes. -/
def byteXor (m b : Nat) : Nat := (b ^^^ m) % 256

/-- Buffer.readUInt32LE / DataView.getUint32(_, true): reads 4 bytes
little-endian; both Node and DataView throw a range error when fewer than
4 bytes remain, modelled as none. -/
def readU32LE (data : List Nat) (off : Nat) : Option Nat :=
  if off + 4 ≤ data.length then
    some (data.getD off 0 + 256 * data.getD (off + 1) 0 +
      65536 * data.getD (off + 2) 0 + 16777216 * data.getD (off + 3) 0)
  else none

/-- JS subarray/slice with a start and a length: both bounds clamp to the
buffer, no exception is possible, no byte outside the buffer is read. -/
def sliceLen (data : List Nat) (start len : Nat) : List Nat :=
  (data.drop start).take len

/-- The keystream index of the audio loop: with j already reduced mod 256,
idx = (keyBox[j] + keyBox[(keyBox[j] + j) & 0xff]) & 0xff
(line 90 of ncmdump.js, line 142 of ncmdump-browser.ts). -/
def ksIdx (t : List Nat) (j : Nat) : Nat :=
  (t.getD j 0 + t.getD ((t.getD j 0 + j) % 256) 0) % 256

/-- The keystream byte XORed onto the payload: keyBox[idx]. -/
def ksByte (t : List Nat) (j : Nat) : Nat := t.getD (ksIdx t j) 0

/-- The audio XOR loop of dumpNcm (ncmdump-browser.ts lines 140-144),
generalised with the number s of payload bytes already processed, so that the
chunked Node loop can be expressed with the same function.  For the n-th
remaining byte the loop uses j = (s + n + 1) & 0xff; at s = 0 this is the
(i + 1) & 0xff of the source. -/
def decryptFrom (t : List Nat) : Nat → List Nat → List Nat
  | _, [] => []
  | s, b :: rest => byteXor (ksByte t ((s + 1) % 256)) b :: decryptFrom t (s + 1) rest

/-- The browser audio decryptor: a single unchunked pass, j = (i + 1) & 0xff
for the 0-based absolute index i (ncmdump-browser.ts lines 140-144).  The
inner per-chunk loop of ncmdump.js lines 88-92 is this same function applied
to one chunk: there i runs 1..len over the chunk with j = i & 0xff. -/
def decryptPayload (t : List Nat) (p : List Nat) : List Nat :=
  decryptFrom t 0 p

/-- The body of the chunked processing loop, with an explicit iteration bound
so the recursion is structural.  Each loop iteration of the source advances
pos by csize ≥ 1 bytes, so the loop runs at most payload-length iterations:
with that much fuel this function is exactly the source loop. -/
def dumpChunksGo (t : List Nat) (csize : Nat) : Nat → List Nat → List Nat
  | _, [] => []
  | 0, _ :: _ => []
  | fuel + 1, b :: rest =>
      decryptPayload t ((b :: rest).take csize) ++
        dumpChunksGo t csize fuel ((b :: rest).drop csize)

/-- The chunked processing loop of ncmdump.js lines 83-94: the payload is cut
into csize-byte chunks and the per-chunk loop (j computed from the
chunk-relative 1-based index, lines 88-92) is run on each chunk.  The source
uses the constant csize = 0x8000. -/
def dumpChunks (t : List Nat) (csize : Nat) (p : List Nat) : List Nat :=
  dumpChunksGo t csize p.length p

/-- The swap index c of one key-box iteration
(ncmdump.js lines 44-45, ncmdump-browser.ts lines 107-108):
c = (keyBox[i] + lastByte + keyDecrypted[keyOffset]) & 0xff.
When the derived key is empty the read keyDecrypted[keyOffset] is an
out-of-range typed-array access: it yields undefined, the sum is NaN and
NaN & 0xff evaluates to 0, so c = 0 in that case.  No exception occurs. -/
def stepC (key : List Nat) (t : List Nat) (last ko i : Nat) : Nat :=
  if ko < key.length then (t.getD i 0 + last + key.getD ko 0) % 256 else 0

/-- One iteration of the key-box loop (ncmdump.js lines 43-51): state is
(keyBox, lastByte, keyOffset); swap = keyBox[i]; keyBox[i] = keyBox[c];
keyBox[c] = swap; keyOffset advances and wraps to 0 when it reaches the key
length. -/
def keyBoxStep (key : List Nat) : List Nat × Nat × Nat → Nat → List Nat × Nat × Nat
  | (t, last, ko), i =>
      let c := stepC key t last ko i
      ((t.set i (t.getD c 0)).set c (t.getD i 0), c,
        if key.length ≤ ko + 1 then 0 else ko + 1)

/-- The key-box builder (ncmdump.js lines 38-51, ncmdump-browser.ts lines
101-114): table initialised to 0..255, then 256 swap iterations driven by the
derived key.  Total: the source has no length check and, as explained at
stepC, an empty key produces c = 0 at every step rather than an error. -/
def buildKeyBox (key : List Nat) : List Nat :=
  ((List.range 256).foldl (keyBoxStep key) (List.range 256, 0, 0)).1

/-- Whether four characters match the regular expression fragment
/\.ncm/i character by character, as in the replace(/\.ncm$/i, '') of
ncmdump.js line 77 and ncmdump-browser.ts line 147. -/
def ncmExtMatch : List Char → Bool
  | ['.', c1, c2, c3] =>
      (c1 == 'n' || c1 == 'N') && (c2 == 'c' || c2 == 'C') && (c3 == 'm' || c3 == 'M')
  | _ => false

/-- name.replace(/\.ncm$/i, ''): strips one trailing case-insensitive
occurrence of .ncm, otherwise returns the name unchanged. -/
def stripNcm (s : List Char) : List Char :=
  if ncmExtMatch (s.drop (s.length - 4)) then s.take (s.length - 4) else s

/-- The default format string, the literal mp3 of both sources. -/
def mp3Ext : List Char := ['m', 'p', '3']

/-- metaJson.format || 'mp3' (ncmdump.js line 76, ncmdump-browser.ts line
146): an absent field or a falsy (empty) string falls back to mp3. -/
def formatOrMp3 : Option (List Char) → List Char
  | some f => if f.isEmpty then mp3Ext else f
  | none => mp3Ext

/-- The Node output file name (ncmdump.js line 77):
basename with a trailing .ncm stripped case-insensitively, then a dot and the
recovered format appended. -/
def nodeOutName (base fmt : List Char) : List Char :=
  stripNcm base ++ '.' :: fmt

/-- mimeFromFormat of ncmdump-browser.ts lines 51-68: a switch on the
lowercased format string. -/
def mimeFromFormat (fmt : List Char) : List Char :=
  let f := fmt.map Char.toLower
  if f = ['m', 'p', '3'] then ['a', 'u', 'd', 'i', 'o', '/', 'm', 'p', 'e', 'g']
  else if f = ['f', 'l', 'a', 'c'] then ['a', 'u', 'd', 'i', 'o', '/', 'f', 'l', 'a', 'c']
  else if f = ['m', '4', 'a'] then ['a', 'u', 'd', 'i', 'o', '/', 'm', 'p', '4']
  else if f = ['a', 'a', 'c'] then ['a', 'u', 'd', 'i', 'o', '/', 'a', 'a', 'c']
  else if f = ['w', 'a', 'v'] then ['a', 'u', 'd', 'i', 'o', '/', 'w', 'a', 'v']
  else if f = ['o', 'g', 'g'] then ['a', 'u', 'd', 'i', 'o', '/', 'o', 'g', 'g']
  else ['a', 'p', 'p', 'l', 'i', 'c', 'a', 't', 'i', 'o', 'n', '/',
    'o', 'c', 't', 'e', 't', '-', 's', 't', 'r', 'e', 'a', 'm']

/-- The 8-byte magic CTENFDAM. -/
def ncmMagic : List Nat := [0x43, 0x54, 0x45, 0x4E, 0x46, 0x44, 0x41, 0x4D]

/-- The fixed 16-byte core key (hex 687A4852416D736F356B496E62617857). -/
def coreKey : List Nat :=
  [0x68, 0x7A, 0x48, 0x52, 0x41, 0x6D, 0x73, 0x6F,
   0x35, 0x6B, 0x49, 0x6E, 0x62, 0x61, 0x78, 0x57]

/-- The fixed 16-byte meta key (hex 2331346C6A6B5F215C5D2630553C2728). -/
def metaKey : List Nat :=
  [0x23, 0x31, 0x34, 0x6C, 0x6A, 0x6B, 0x5F, 0x21,
   0x5C, 0x5D, 0x26, 0x30, 0x55, 0x3C, 0x27, 0x28]

/-- Modelled from the spec: the Block Cipher Adapter (spec 4.2) and the other
platform primitives the decoders call but that are not code of this
repository: AES-128-ECB decryption with PKCS#7 unpadding (node:crypto /
crypto-js), UTF-8 text decoding (Buffer.toString / TextDecoder), lenient
base64 decoding (Buffer.from(_, 'base64'), which never throws), strict
base64 decoding (atob, which throws on invalid input), and JSON.parse
restricted to the one field the decoders read, format.  none models a thrown
exception; the lenient Node base64 decoder and the UTF-8 decoder are total. -/
structure Primitives where
  aesEcbDecrypt : List Nat → List Nat → Option (List Nat)
  utf8Decode : List Nat → List Char
  base64Node : List Char → List Nat
  atobDecode : List Char → Option (List Nat)
  jsonFormatField : List Char → Option (Option (List Char))

/-- The exceptions the decode pipeline can raise, by raise site:
invalidHeader for the magic mismatch throw, outOfRange for the range error of
a 4-byte read past the buffer, cipherFail for an AES/padding failure,
base64Fail for an atob failure (browser only), jsonFail for a JSON.parse
failure. -/
inductive JsErr
  | invalidHeader
  | outOfRange
  | cipherFail
  | base64Fail
  | jsonFail
deriving DecidableEq

/-- What a successful Node dump produces: the output file name and the
decoded audio bytes written to it.  An exception before the write means no
output file: in the source the output file is only opened (line 81) after
every throwing statement has run. -/
structure NodeOut where
  outFileName : List Char
  decoded : List Nat
deriving DecidableEq

/-- The DumpResult of the browser decoder: filename, format, the MIME type
of the Blob, and the decoded audio bytes. -/
structure BrowserOut where
  filename : List Char
  format : List Char
  mime : List Char
  decoded : List Nat
deriving DecidableEq

/-- The key block after the XOR-0x64 unmasking (ncmdump.js lines 29-31):
keyLength bytes taken from offset 14, clamped to the buffer. -/
def keyBlockXored (data : List Nat) (klen : Nat) : List Nat :=
  (sliceLen data 14 klen).map (byteXor 0x64)

/-- The metadata block after the XOR-0x63 unmasking (ncmdump.js lines
56-58): mlen bytes taken from offset 14 + klen + 4, clamped to the buffer. -/
def metaBlockXored (data : List Nat) (klen mlen : Nat) : List Nat :=
  (sliceLen data (14 + klen + 4) mlen).map (byteXor 0x63)

/-- The metadata ciphertext of the Node path (ncmdump.js lines 60-61): drop
the 22-byte prefix, decode the rest as UTF-8 text, lenient base64 decode. -/
def metaCipherNode (P : Primitives) (data : List Nat) (klen mlen : Nat) : List Nat :=
  P.base64Node (P.utf8Decode ((metaBlockXored data klen mlen).drop 22))

/-- The dump function of scripts/ncmdump.js, statement by statement.  The
file-system side is peripheral: the path argument becomes the base name, and
the bytes that the source writes to the output file are returned.  Every
throw of the source is an error value here; the output file is only created
on the ok path. -/
def nodeDump (P : Primitives) (baseName : List Char) (data : List Nat) :
    Except JsErr NodeOut :=
  if data.take 8 = ncmMagic then
    match readU32LE data 10 with
    | none => .error .outOfRange
    | some klen =>
      match P.aesEcbDecrypt coreKey (keyBlockXored data klen) with
      | none => .error .cipherFail
      | some keyPlain =>
        let keyBox := buildKeyBox (keyPlain.drop 17)
        match readU32LE data (14 + klen) with
        | none => .error .outOfRange
        | some mlen =>
          match P.aesEcbDecrypt metaKey (metaCipherNode P data klen mlen) with
          | none => .error .cipherFail
          | some metaPlain =>
            match P.jsonFormatField ((P.utf8Decode metaPlain).drop 6) with
            | none => .error .jsonFail
            | some fmtField =>
              match readU32LE data (14 + klen + 4 + mlen) with
              | none => .error .outOfRange
              | some _crc =>
                match readU32LE data (14 + klen + 4 + mlen + 9) with
                | none => .error .outOfRange
                | some imageSize =>
                  let start := 14 + klen + 4 + mlen + 9 + 4 + imageSize
                  .ok ⟨nodeOutName baseName (formatOrMp3 fmtField),
                    dumpChunks keyBox 0x8000 (data.drop start)⟩
  else .error .invalidHeader

/-- opts?.sourceFileName || 'output.ncm' of ncmdump-browser.ts line 147:
an absent or empty name falls back to the literal output.ncm. -/
def nameOrDefault : Option (List Char) → List Char
  | some s =>
      if s.isEmpty then ['o', 'u', 't', 'p', 'u', 't', '.', 'n', 'c', 'm'] else s
  | none => ['o', 'u', 't', 'p', 'u', 't', '.', 'n', 'c', 'm']

/-- The dumpNcm function of src/lib/ncmdump-browser.ts, statement by
statement.  It differs from nodeDump in exactly the ways the source does:
base64 decoding uses the strict atob (an invalid-character throw is
base64Fail), the format string is lowercased before composing the filename,
the MIME type and the returned format, and the audio is decrypted in one
unchunked pass. -/
def browserDump (P : Primitives) (sourceFileName : Option (List Char))
    (data : List Nat) : Except JsErr BrowserOut :=
  if data.take 8 = ncmMagic then
    match readU32LE data 10 with
    | none => .error .outOfRange
    | some klen =>
      match P.aesEcbDecrypt coreKey (keyBlockXored data klen) with
      | none => .error .cipherFail
      | some keyPlain =>
        let keyBox := buildKeyBox (keyPlain.drop 17)
        match readU32LE data (14 + klen) with
        | none => .error .outOfRange
        | some mlen =>
          match P.atobDecode (P.utf8Decode ((metaBlockXored data klen mlen).drop 22)) with
          | none => .error .base64Fail
          | some metaEncrypted =>
            match P.aesEcbDecrypt metaKey metaEncrypted with
            | none => .error .cipherFail
            | some metaPlain =>
              match P.jsonFormatField ((P.utf8Decode metaPlain).drop 6) with
              | none => .error .jsonFail
              | some fmtField =>
                match readU32LE data (14 + klen + 4 + mlen) with
                | none => .error .outOfRange
                | some _crc =>
                  match readU32LE data (14 + klen + 4 + mlen + 9) with
                  | none => .error .outOfRange
                  | some imageSize =>
                    let start := 14 + klen + 4 + mlen + 9 + 4 + imageSize
                    let fmt := (formatOrMp3 fmtField).map Char.toLower
                    .ok ⟨stripNcm (nameOrDefault sourceFileName) ++ '.' :: fmt,
                      fmt, mimeFromFormat fmt,
                      decryptPayload keyBox (data.drop start)⟩
  else .error .invalidHeader

/-- ASCII instantiation of the UTF-8 text decoder, used for the concrete
containers below (all of whose text bytes are ASCII). -/
def asciiChars (bs : List Nat) : List Char :=
  bs.map (fun b => Char.ofNat (b % 256))

/-- Concrete primitives for counterexamples: the cipher succeeds and returns
the ciphertext unchanged (standing for a decryption that happens to succeed),
and JSON parsing fails, as JSON.parse does on text that is not JSON. -/
def pIdent : Primitives :=
  ⟨fun _ ct => some ct, asciiChars, fun _ => [], fun _ => some [], fun _ => none⟩

/-- Concrete primitives for counterexamples: the cipher fails, as AES-ECB
with PKCS#7 unpadding does on a ciphertext whose length is not a multiple of
16 bytes. -/
def pNoCipher : Primitives :=
  ⟨fun _ _ => none, asciiChars, fun _ => [], fun _ => none, fun _ => none⟩

/-- Concrete primitives under which the metadata parses to the record
with format field FLAC (uppercase). -/
def pFlac : Primitives :=
  ⟨fun _ ct => some ct, asciiChars, fun _ => [],
    fun _ => some [], fun _ => some (some ['F', 'L', 'A', 'C'])⟩

/-- An 18-byte key block that XOR-unmasks to 18 zero bytes. -/
def keyBlock18 : List Nat := List.replicate 18 0x64

/-- A container whose header and key sections are well-formed (under the
pIdent cipher) and whose metadata block decodes to text that fails JSON
parsing: magic, 2 reserved bytes, 18-byte key block, 1-byte metadata block,
checksum, 5 reserved bytes, zero-length image, 3-byte payload. -/
def containerMetaBad : List Nat :=
  ncmMagic ++ [0, 0] ++ [18, 0, 0, 0] ++ keyBlock18 ++
    [1, 0, 0, 0] ++ [0x63] ++ [0, 0, 0, 0] ++ [0, 0, 0, 0, 0] ++
    [0, 0, 0, 0] ++ [1, 2, 3]

/-- A container whose key block declares length 255 with 0 bytes remaining
after the length field. -/
def containerShortKey : List Nat :=
  ncmMagic ++ [0, 0] ++ [255, 0, 0, 0]

/-- A container whose key section is well-formed (under the pIdent cipher)
and whose metadata block declares length 200 with 0 bytes remaining. -/
def containerShortMeta : List Nat :=
  ncmMagic ++ [0, 0] ++ [18, 0, 0, 0] ++ keyBlock18 ++ [200, 0, 0, 0]

/-- The base name song.ncm used in concrete naming statements. -/
def songNcm : List Char := ['s', 'o', 'n', 'g', '.', 'n', 'c', 'm']

/-- The base name track.ncm of the spec example. -/
def trackNcm : List Char := ['t', 'r', 'a', 'c', 'k', '.', 'n', 'c', 'm']

/-- The expected output name track.mp3 of the spec example. -/
def trackMp3 : List Char := ['t', 'r', 'a', 'c', 'k', '.', 'm', 'p', '3']

/-- The mixed-case base name Track.NCM of the spec example. -/
def trackNcmUpper : List Char := ['T', 'r', 'a', 'c', 'k', '.', 'N', 'C', 'M']

/-- The expected output name Track.mp3 of the spec example. -/
def trackMp3Upper : List Char := ['T', 'r', 'a', 'c', 'k', '.', 'm', 'p', '3']

/- ------------------------------------------------------------------ -/
/- Helper lemmas                                                      -/
/- ------------------------------------------------------------------ -/

theorem decryptFrom_length (t : List Nat) : ∀ (s : Nat) (p : List Nat),
    (decryptFrom t s p).length = p.length := by
  intro s p
  induction p generalizing s with
  | nil => rfl
  | cons b rest ih => simp [decryptFrom, ih]

theorem decryptFrom_congr (t : List Nat) (p : List Nat) :
    ∀ s s', s % 256 = s' % 256 → decryptFrom t s p = decryptFrom t s' p := by
  induction p with
  | nil => intro s s' _; rfl
  | cons b rest ih =>
    intro s s' h
    have h1 : (s + 1) % 256 = (s' + 1) % 256 := by omega
    simp only [decryptFrom, h1, ih (s + 1) (s' + 1) h1]

theorem decryptFrom_append (t : List Nat) (a b : List Nat) :
    ∀ s, decryptFrom t s (a ++ b) =
      decryptFrom t s a ++ decryptFrom t (s + a.length) b := by
  induction a with
  | nil => intro s; simp [decryptFrom]
  | cons x a ih =>
    intro s
    simp only [List.cons_append, decryptFrom, List.length_cons, List.append_eq]
    rw [ih (s + 1), show s + (a.length + 1) = s + 1 + a.length from by omega]

theorem getD_lt_256 (t : List Nat) (h : ∀ b ∈ t, b < 256) (n : Nat) :
    t.getD n 0 < 256 := by
  rcases Nat.lt_or_ge n t.length with hn | hn
  · have he : t.getD n 0 = t[n] := by
      simp [List.getD_eq_getElem?_getD, List.getElem?_eq_getElem hn]
    rw [he]
    exact h _ (List.getElem_mem hn)
  · have he : t.getD n 0 = 0 := by
      simp [List.getD_eq_getElem?_getD, List.getElem?_eq_none hn]
    omega

theorem ksByte_lt_256 (t : List Nat) (h : ∀ b ∈ t, b < 256) (j : Nat) :
    ksByte t j < 256 :=
  getD_lt_256 t h _

theorem byteXor_eq_xor (m b : Nat) (hm : m < 256) (hb : b < 256) :
    byteXor m b = b ^^^ m := by
  have h2 : b ^^^ m < 256 := by
    have := Nat.xor_lt_two_pow (x := b) (y := m) (n := 8) (by norm_num; omega)
      (by norm_num; omega)
    norm_num at this
    omega
  simpa [byteXor] using Nat.mod_eq_of_lt h2

theorem decryptFrom_getD (t : List Nat) : ∀ (p : List Nat) (s n : Nat),
    n < p.length →
    (decryptFrom t s p).getD n 0 =
      byteXor (ksByte t ((s + n + 1) % 256)) (p.getD n 0) := by
  intro p
  induction p with
  | nil => intro s n h; simp at h
  | cons b rest ih =>
    intro s n h
    cases n with
    | zero => simp [decryptFrom]
    | succ n =>
      simp only [decryptFrom, List.getD_cons_succ]
      rw [ih (s + 1) n (by simpa using h)]
      congr 2
      omega

theorem decryptFrom_involution (t : List Nat) (ht : ∀ b ∈ t, b < 256) :
    ∀ (p : List Nat) (s : Nat), (∀ b ∈ p, b < 256) →
      decryptFrom t s (decryptFrom t s p) = p := by
  intro p
  induction p with
  | nil => intro s _; rfl
  | cons b rest ih =>
    intro s hp
    have hb : b < 256 := hp b (by simp)
    have hks : ksByte t ((s + 1) % 256) < 256 := ksByte_lt_256 t ht _
    have hbx : b ^^^ ksByte t ((s + 1) % 256) < 256 := by
      have := Nat.xor_lt_two_pow (x := b) (y := ksByte t ((s + 1) % 256)) (n := 8)
        (by norm_num; omega) (by norm_num; omega)
      norm_num at this
      omega
    simp only [decryptFrom]
    have hhead : byteXor (ksByte t ((s + 1) % 256))
        (byteXor (ksByte t ((s + 1) % 256)) b) = b := by
      rw [byteXor_eq_xor _ _ hks hb, byteXor_eq_xor _ _ hks hbx,
        Nat.xor_assoc, Nat.xor_self, Nat.xor_zero]
    rw [hhead, ih (s + 1) (fun x hx => hp x (by simp [hx]))]

theorem getD_eq_elem (l : List Nat) (i : Nat) (h : i < l.length) :
    l.getD i 0 = l[i] := by
  simp [List.getD_eq_getElem?_getD, List.getElem?_eq_getElem h]

theorem swap_count (l : List Nat) (i c : Nat) (hi : i < l.length)
    (hc : c < l.length) (b : Nat) :
    ((l.set i (l.getD c 0)).set c (l.getD i 0)).count b = l.count b := by
  have hc2 : c < (l.set i (l.getD c 0)).length := by simpa using hc
  rw [List.count_set _ _ _ _ hc2, List.count_set _ _ _ _ hi]
  have hx : (l.set i (l.getD c 0))[c] = l[c] := by
    rw [List.getElem_set]
    split
    · exact getD_eq_elem l c hc
    · rfl
  rw [hx, getD_eq_elem l c hc, getD_eq_elem l i hi]
  simp only [beq_iff_eq]
  have hcnt_i : l[i] = b → 1 ≤ l.count b := by
    intro he
    have : b ∈ l := he ▸ List.getElem_mem hi
    exact List.count_pos_iff.mpr this
  have hcnt_c : l[c] = b → 1 ≤ l.count b := by
    intro he
    have : b ∈ l := he ▸ List.getElem_mem hc
    exact List.count_pos_iff.mpr this
  split_ifs <;> simp_all

theorem swap_perm (l : List Nat) (i c : Nat) (hi : i < l.length)
    (hc : c < l.length) :
    ((l.set i (l.getD c 0)).set c (l.getD i 0)).Perm l :=
  List.perm_iff_count.mpr fun b => swap_count l i c hi hc b

theorem keyBoxStep_inv (key : List Nat) (t : List Nat) (last ko i : Nat)
    (hi : i < 256) (hlen : t.length = 256) (hperm : t.Perm (List.range 256)) :
    (keyBoxStep key (t, last, ko) i).1.length = 256 ∧
      (keyBoxStep key (t, last, ko) i).1.Perm (List.range 256) := by
  have hc : stepC key t last ko i < 256 := by
    unfold stepC
    split
    · exact Nat.mod_lt _ (by norm_num)
    · norm_num
  refine ⟨by simp [keyBoxStep, hlen], ?_⟩
  exact (swap_perm t i (stepC key t last ko i) (by omega) (by omega)).trans hperm

theorem foldl_keyBox_inv (key : List Nat) : ∀ (l : List Nat),
    (∀ x ∈ l, x < 256) → ∀ (acc : List Nat × Nat × Nat),
    acc.1.length = 256 → acc.1.Perm (List.range 256) →
    (l.foldl (keyBoxStep key) acc).1.length = 256 ∧
      (l.foldl (keyBoxStep key) acc).1.Perm (List.range 256) := by
  intro l
  induction l with
  | nil => intro _ acc h1 h2; exact ⟨h1, h2⟩
  | cons x xs ih =>
    intro hx acc h1 h2
    obtain ⟨t, last, ko⟩ := acc
    have step := keyBoxStep_inv key t last ko x (hx x (by simp)) h1 h2
    exact ih (fun y hy => hx y (by simp [hy])) _ step.1 step.2

/- ------------------------------------------------------------------ -/
/- Claim theorems                                                     -/
/- ------------------------------------------------------------------ -/

/-- C1 (amended): a metadata decode failure does not degrade gracefully: the
source has no try/catch around the metadata stage (ncmdump.js lines 60-64),
so a cipher failure or JSON-parse failure there aborts the whole decode with
an error and no output is produced; the mp3 default applies only to a
successfully parsed metadata object whose format field is absent or empty. -/
theorem c1_meta_failure_aborts (P : Primitives) (base : List Char)
    (data : List Nat) (klen : Nat) (keyPlain : List Nat) (mlen : Nat)
    (hMagic : data.take 8 = ncmMagic)
    (hKlen : readU32LE data 10 = some klen)
    (hKey : P.aesEcbDecrypt coreKey (keyBlockXored data klen) = some keyPlain)
    (hMlen : readU32LE data (14 + klen) = some mlen) :
    (P.aesEcbDecrypt metaKey (metaCipherNode P data klen mlen) = none →
      nodeDump P base data = .error .cipherFail) ∧
    ∀ metaPlain,
      P.aesEcbDecrypt metaKey (metaCipherNode P data klen mlen) = some metaPlain →
      P.jsonFormatField ((P.utf8Decode metaPlain).drop 6) = none →
      nodeDump P base data = .error .jsonFail := by
  constructor
  · intro hm
    simp [nodeDump, hMagic, hKlen, hKey, hMlen, hm]
  · intro mp hm hj
    simp [nodeDump, hMagic, hKlen, hKey, hMlen, hm, hj]

/-- C1 counterexample: a concrete container whose header and key sections are
well-formed (the cipher yields a plaintext, the derived key is non-empty) but
whose metadata text fails JSON parsing; decode aborts with an error instead
of returning the audio with format mp3 and an empty record. -/
theorem c1_counterexample :
    nodeDump pIdent songNcm containerMetaBad = .error .jsonFail := by
  rfl

/-- C1 witness for the amended theorem, at the same concrete container. -/
theorem c1_witness :
    readU32LE containerMetaBad 10 = some 18 ∧
      nodeDump pIdent songNcm containerMetaBad = .error .jsonFail :=
  ⟨by decide,
    (c1_meta_failure_aborts pIdent songNcm containerMetaBad 18
      (List.replicate 18 0) 1 (by decide) (by decide) (by decide)
      (by decide)).2 [] (by decide) (by decide)⟩

/-- C2 (amended): a key or metadata block declaring a length beyond the
remaining buffer makes decode fail — the JS slice clamps, so no byte outside
the buffer is ever read — but the failure is the out-of-range error of the
next 4-byte read only when the intermediate decryption/parsing of the
truncated block succeeds; otherwise it is the cipher/JSON error, since the
source (ncmdump.js lines 27-31) has no explicit bounds check of its own. -/
theorem c2_oversized_fails :
    (∀ (P : Primitives) (base : List Char) (data : List Nat) (klen : Nat),
        data.take 8 = ncmMagic → readU32LE data 10 = some klen →
        data.length < 14 + klen →
        nodeDump P base data = .error .cipherFail ∨
          nodeDump P base data = .error .outOfRange) ∧
    (∀ (P : Primitives) (base : List Char) (data : List Nat) (klen : Nat)
        (keyPlain : List Nat) (mlen : Nat),
        data.take 8 = ncmMagic → readU32LE data 10 = some klen →
        P.aesEcbDecrypt coreKey (keyBlockXored data klen) = some keyPlain →
        readU32LE data (14 + klen) = some mlen →
        data.length < 14 + klen + 4 + mlen →
        nodeDump P base data = .error .cipherFail ∨
          nodeDump P base data = .error .jsonFail ∨
          nodeDump P base data = .error .outOfRange) := by
  constructor
  · intro P base data klen hMagic hKlen hlen
    cases hA : P.aesEcbDecrypt coreKey (keyBlockXored data klen) with
    | none =>
      left
      simp [nodeDump, hMagic, hKlen, hA]
    | some kp =>
      right
      have hm : readU32LE data (14 + klen) = none := by
        unfold readU32LE
        rw [if_neg]
        omega
      simp [nodeDump, hMagic, hKlen, hA, hm]
  · intro P base data klen kp mlen hMagic hKlen hKey hMlen hlen
    cases hA : P.aesEcbDecrypt metaKey (metaCipherNode P data klen mlen) with
    | none =>
      left
      simp [nodeDump, hMagic, hKlen, hKey, hMlen, hA]
    | some mp =>
      cases hJ : P.jsonFormatField ((P.utf8Decode mp).drop 6) with
      | none =>
        right; left
        simp [nodeDump, hMagic, hKlen, hKey, hMlen, hA, hJ]
      | some f =>
        right; right
        have hcrc : readU32LE data (14 + klen + 4 + mlen) = none := by
          unfold readU32LE
          rw [if_neg]
          omega
        simp [nodeDump, hMagic, hKlen, hKey, hMlen, hA, hJ, hcrc]

/-- C2 counterexample: a container whose key block declares 255 bytes with 0
remaining; under a cipher that rejects the truncated (empty) block — as
AES-ECB unpadding does — the failure is a cipher error, not OutOfBounds. -/
theorem c2_counterexample :
    readU32LE containerShortKey 10 = some 255 ∧
      containerShortKey.length < 14 + 255 ∧
      nodeDump pNoCipher [] containerShortKey = .error .cipherFail ∧
      JsErr.cipherFail ≠ JsErr.outOfRange :=
  ⟨by decide, by decide, by rfl, by decide⟩

/-- C2 witness for the amended theorem: an oversized key length and an
oversized metadata length, each making decode fail. -/
theorem c2_witness :
    (containerShortKey.length < 14 + 255 ∧
      (nodeDump pNoCipher [] containerShortKey = .error .cipherFail ∨
        nodeDump pNoCipher [] containerShortKey = .error .outOfRange)) ∧
    (containerShortMeta.length < 14 + 18 + 4 + 200 ∧
      (nodeDump pIdent [] containerShortMeta = .error .cipherFail ∨
        nodeDump pIdent [] containerShortMeta = .error .jsonFail ∨
        nodeDump pIdent [] containerShortMeta = .error .outOfRange)) :=
  ⟨⟨by decide,
      c2_oversized_fails.1 pNoCipher [] containerShortKey 255 (by decide)
        (by decide) (by decide)⟩,
    ⟨by decide,
      c2_oversized_fails.2 pIdent [] containerShortMeta 18
        (List.replicate 18 0) 200 (by decide) (by decide) (by decide)
        (by decide) (by decide)⟩⟩

/-- C3 (amended): chunked and unchunked decryption agree for every chunk size
that is a positive multiple of 256 — in particular for the source's 0x8000 —
because the chunk-relative index j then coincides with the absolute one
modulo 256.  For other chunk sizes they can differ (see the counterexample):
j is computed from the chunk-relative offset, not the absolute one. -/
theorem c3_chunk_aligned (t : List Nat) (csize : Nat) (h : 0 < csize)
    (hdvd : 256 ∣ csize) (p : List Nat) :
    dumpChunks t csize p = decryptPayload t p := by
  have main : ∀ (fuel : Nat) (q : List Nat), q.length ≤ fuel →
      dumpChunksGo t csize fuel q = decryptPayload t q := by
    intro fuel
    induction fuel with
    | zero =>
      intro q hq
      have : q = [] := List.eq_nil_of_length_eq_zero (by omega)
      subst this
      rfl
    | succ n ih =>
      intro q hq
      match q with
      | [] => rfl
      | b :: rest =>
        simp only [dumpChunksGo]
        have hdl : ((b :: rest).drop csize).length ≤ n := by
          rw [List.length_drop]
          simp only [List.length_cons] at hq ⊢
          omega
        rw [ih ((b :: rest).drop csize) hdl]
        rcases le_or_lt csize (b :: rest).length with hle | hlt
        · have hsplit : decryptPayload t (b :: rest) =
              decryptFrom t 0 ((b :: rest).take csize) ++
                decryptFrom t (0 + ((b :: rest).take csize).length)
                  ((b :: rest).drop csize) := by
            conv_lhs =>
              rw [decryptPayload,
                show (b :: rest) =
                  (b :: rest).take csize ++ (b :: rest).drop csize from
                  (List.take_append_drop _ _).symm]
            rw [decryptFrom_append]
          rw [hsplit]
          congr 1
          apply decryptFrom_congr
          rw [List.length_take]
          have : min csize (b :: rest).length = csize := by omega
          rw [this]
          omega
        · have hdrop : (b :: rest).drop csize = [] :=
            List.drop_eq_nil_of_le (le_of_lt hlt)
          have htake : (b :: rest).take csize = b :: rest :=
            List.take_of_length_le (le_of_lt hlt)
          rw [hdrop, htake]
          simp [decryptPayload, decryptFrom]
  exact main p.length p le_rfl

/-- C3 counterexample: with chunk size 1 (≥ 1) the chunked loop resets j to 1
in every chunk, so the output differs from the unchunked one already on a
2-byte payload under the identity table. -/
theorem c3_counterexample :
    dumpChunks (List.range 256) 1 [0, 0] ≠
      decryptPayload (List.range 256) [0, 0] := by
  decide

/-- C3 witness for the amended theorem at chunk size 256. -/
theorem c3_witness :
    (0 < 256 ∧ (256 : Nat) ∣ 256) ∧
      dumpChunks (List.range 256) 256 [0, 0] =
        decryptPayload (List.range 256) [0, 0] :=
  ⟨⟨by decide, by decide⟩,
    c3_chunk_aligned (List.range 256) 256 (by decide) (by decide) [0, 0]⟩

/-- C4: the audio stream decryptor is total, length-preserving, and satisfies
output[n] = payload[n] XOR table[idx(n)] with
idx(n) = (table[j] + table[(table[j] + j) mod 256]) mod 256 and
j = (n + 1) mod 256, for byte-valued tables and payloads. -/
theorem c4_stream_formula (t p : List Nat) (htl : t.length = 256)
    (ht : ∀ b ∈ t, b < 256) (hp : ∀ b ∈ p, b < 256) :
    (decryptPayload t p).length = p.length ∧
    ∀ n, n < p.length →
      (decryptPayload t p).getD n 0 =
        p.getD n 0 ^^^
          t.getD ((t.getD ((n + 1) % 256) 0 +
            t.getD ((t.getD ((n + 1) % 256) 0 + (n + 1) % 256) % 256) 0) % 256) 0 := by
  constructor
  · exact decryptFrom_length t 0 p
  · intro n hn
    rw [decryptPayload, decryptFrom_getD t p 0 n hn]
    have hpn : p.getD n 0 < 256 := getD_lt_256 p hp n
    have hks : ksByte t ((0 + n + 1) % 256) < 256 := ksByte_lt_256 t ht _
    rw [byteXor_eq_xor _ _ hks hpn]
    simp [ksByte, ksIdx, Nat.zero_add]

/-- C4 witness at a concrete table and payload. -/
theorem c4_witness :
    (List.range 256).length = 256 ∧
      (decryptPayload (List.range 256) [10, 20]).length = ([10, 20] : List Nat).length :=
  ⟨by decide,
    (c4_stream_formula (List.range 256) [10, 20] (by decide) (by decide)
      (by decide)).1⟩

/-- C5: the key-box builder always yields a permutation of 0..255 for a
non-empty key, because every iteration swaps two in-range entries of a table
initialised to 0..255. -/
theorem c5_keybox_perm (key : List Nat) (hk : key ≠ []) :
    (buildKeyBox key).Perm (List.range 256) :=
  (foldl_keyBox_inv key (List.range 256) (fun x hx => List.mem_range.mp hx)
    (List.range 256, 0, 0) (by simp) (List.Perm.refl _)).2

/-- C5 witness at the one-byte key 0. -/
theorem c5_witness :
    ([0] : List Nat) ≠ [] ∧ (buildKeyBox [0]).Perm (List.range 256) :=
  ⟨by decide, c5_keybox_perm [0] (by decide)⟩

/-- C6: the audio stream decryptor is an involution: applying it twice with
the same table returns the original payload. -/
theorem c6_involution (t p : List Nat) (ht : ∀ b ∈ t, b < 256)
    (hp : ∀ b ∈ p, b < 256) :
    decryptPayload t (decryptPayload t p) = p :=
  decryptFrom_involution t ht p 0 hp

/-- C6 witness at a concrete table and payload. -/
theorem c6_witness :
    decryptPayload (List.range 256)
      (decryptPayload (List.range 256) [7, 8, 9]) = [7, 8, 9] :=
  c6_involution (List.range 256) [7, 8, 9] (by decide) (by decide)

/-- C7 counterexample: with a zero-length derived key the builder does not
fail — it returns a full 256-entry table (see c7_empty_key_total for its
exact value), because the out-of-range key-byte read yields undefined, the
sum is NaN, and NaN & 0xff is 0 in JS. -/
theorem c7_counterexample : (buildKeyBox []).length = 256 := by decide

/-- C7 (amended): on the empty key every swap index is 0, so the builder
returns the table [255, 0, 1, ..., 254] instead of raising an error. -/
theorem c7_empty_key_total : buildKeyBox [] = 255 :: List.range 255 := by
  decide

/-- C8: a buffer whose first 8 bytes are not the magic CTENFDAM makes both
decoders fail with the invalid-header error before reading anything else; no
output is produced (the Node output file is only opened after all parsing). -/
theorem c8_invalid_header (P : Primitives) (base : List Char)
    (name : Option (List Char)) (data : List Nat)
    (h : data.take 8 ≠ ncmMagic) :
    nodeDump P base data = .error .invalidHeader ∧
      browserDump P name data = .error .invalidHeader := by
  constructor
  · simp [nodeDump, h]
  · simp [browserDump, h]

/-- C8 witness at a concrete non-magic buffer. -/
theorem c8_witness :
    ([0] : List Nat).take 8 ≠ ncmMagic ∧
      (nodeDump pIdent [] [0] = .error .invalidHeader ∧
        browserDump pIdent none [0] = .error .invalidHeader) :=
  ⟨by decide, c8_invalid_header pIdent [] none [0] (by decide)⟩

/-- C9: the output name is the base name with one trailing case-insensitive
.ncm stripped and a dot plus the recovered format appended: this holds for
every case variant of the extension, and on the spec's two examples. -/
theorem c9_naming :
    (∀ (stem fmt : List Char) (c1 c2 c3 : Char),
        (c1 = 'n' ∨ c1 = 'N') → (c2 = 'c' ∨ c2 = 'C') → (c3 = 'm' ∨ c3 = 'M') →
        nodeOutName (stem ++ ['.', c1, c2, c3]) fmt = stem ++ '.' :: fmt) ∧
    nodeOutName trackNcm mp3Ext = trackMp3 ∧
    nodeOutName trackNcmUpper mp3Ext = trackMp3Upper := by
  refine ⟨?_, by decide, by decide⟩
  intro stem fmt c1 c2 c3 h1 h2 h3
  have hmatch : ncmExtMatch ['.', c1, c2, c3] = true := by
    rcases h1 with rfl | rfl <;> rcases h2 with rfl | rfl <;>
      rcases h3 with rfl | rfl <;> decide
  have hlen : (stem ++ ['.', c1, c2, c3]).length - 4 = stem.length := by
    simp
  simp only [nodeOutName, stripNcm, hlen, List.drop_left, hmatch, if_true,
    List.take_left]

/-- C9 witness at a concrete mixed-case name. -/
theorem c9_witness :
    nodeOutName (['a'] ++ ['.', 'N', 'C', 'M']) mp3Ext = ['a'] ++ '.' :: mp3Ext :=
  c9_naming.1 ['a'] mp3Ext 'N' 'C' 'M' (Or.inr rfl) (Or.inr rfl) (Or.inr rfl)

/-- C10: on one concrete container whose metadata format field is FLAC, the
Node decoder appends the field unchanged (output name song.FLAC) while the
browser decoder lowercases it (filename song.flac, format flac): the two
implementations produce different names and format strings for the same
input bytes. -/
theorem c10_case_divergence :
    ∃ r1 r2, nodeDump pFlac songNcm containerMetaBad = .ok r1 ∧
      browserDump pFlac (some songNcm) containerMetaBad = .ok r2 ∧
      r1.outFileName = ['s', 'o', 'n', 'g', '.', 'F', 'L', 'A', 'C'] ∧
      r2.filename = ['s', 'o', 'n', 'g', '.', 'f', 'l', 'a', 'c'] ∧
      r2.format = ['f', 'l', 'a', 'c'] ∧
      r1.outFileName ≠ r2.filename :=
  ⟨_, _, rfl, rfl, by decide, by decide, by decide, by decide⟩

end Ncm
